import Mathlib

/-!
Verification of the fastembed-native hash-embedding core against its design
specification.

The algorithmic reference implementation lives in
`tests/poc_algorithm_test.py` (pure Python, exact 64-bit modular integer
arithmetic and double-precision floats).  Python integers are unbounded and
are masked to 64 bits explicitly in the source, so they embed as `Nat` with
the masks written where the source writes them.  Every float produced by the
hash pipeline is a dyadic rational with at most 31 significant bits
(`value / 2^31 * 2 - 1` with `value < 2^31`), which double precision
represents exactly, so those floats embed as `ℚ` with exact arithmetic.
Texts embed as `List Char`; Python's `str.lower()` is modelled on the ASCII
range (the only range exercised by the design's case-invariance contract),
and `str.encode("utf-8")` as the standard UTF-8 scalar encoding.
-/

namespace FastEmbed

/-- The 64-bit mask `0xFFFFFFFFFFFFFFFF` used throughout the source. -/
def U64MASK : ℕ := 0xFFFFFFFFFFFFFFFF

/-- Model of Python `str.lower` on a single character, on the ASCII range:
uppercase `A`–`Z` maps to lowercase, everything else is unchanged. -/
def pyLowerChar (c : Char) : Char :=
  if c.toNat ≥ 65 ∧ c.toNat ≤ 90 then Char.ofNat (c.toNat + 32) else c

/-- Standard UTF-8 encoding of one Unicode scalar value, as the list of its
bytes (each `< 256`); models Python `str.encode("utf-8")` per character. -/
def utf8EncodeChar (c : Char) : List ℕ :=
  let n := c.toNat
  if n < 0x80 then [n]
  else if n < 0x800 then [0xC0 + n / 64, 0x80 + n % 64]
  else if n < 0x10000 then [0xE0 + n / 4096, 0x80 + n / 64 % 64, 0x80 + n % 64]
  else [0xF0 + n / 262144, 0x80 + n / 4096 % 64, 0x80 + n / 64 % 64, 0x80 + n % 64]

/-- `text.lower().encode('utf-8')` from `positional_hash`: lower-case the
text, then take its UTF-8 byte sequence. -/
def textBytes (t : List Char) : List ℕ :=
  (t.map pyLowerChar).flatMap utf8EncodeChar

/-- UTF-8 byte length of the raw (un-lowercased) text, the quantity the
design's input validation bounds by `[1, 8192]`. -/
def utf8ByteLength (t : List Char) : ℕ :=
  (t.flatMap utf8EncodeChar).length

/-- `positional_hash` from `tests/poc_algorithm_test.py`: starting from
`seed`, for each byte of the lower-cased UTF-8 text at 0-based position `i`,
`hash_value = (hash_value * 31 + byte_val * (i + 1)) & 0xFFFFFFFFFFFFFFFF`. -/
def positional_hash (text : List Char) (seed : ℕ) : ℕ :=
  (textBytes text).enum.foldl
    (fun h p => (h * 31 + p.2 * (p.1 + 1)) &&& U64MASK) seed

/-- `generate_combined_hash` from the source:
`hash1 = positional_hash(text, seed)`, `hash2 = positional_hash(text, seed*37)`,
`combined = hash1 ^ ((hash2 << 16) & 0xFFFFFFFFFFFFFFFF)`. -/
def generate_combined_hash (text : List Char) (seed : ℕ) : ℕ :=
  let hash1 := positional_hash text seed
  let hash2 := positional_hash text (seed * 37)
  hash1 ^^^ ((hash2 <<< 16) &&& U64MASK)

/-- `murmur3_finalize` from the source: three xor-shift-by-33 rounds
interleaved with two 64-bit multiplications by fixed odd constants. -/
def murmur3_finalize (hash_value : ℕ) : ℕ :=
  let h1 := hash_value ^^^ (hash_value >>> 33)
  let h2 := (h1 * 0xFF51AFD7ED558CCD) &&& U64MASK
  let h3 := h2 ^^^ (h2 >>> 33)
  let h4 := (h3 * 0xC4CEB9FE1A85EC53) &&& U64MASK
  h4 ^^^ (h4 >>> 33)

/-- `hash_to_float` from the source: finalize, mask to the low 31 bits,
divide by `2^31`, then `result = normalized * 2.0 - 1.0`.  All steps are
exact in double precision, so the result is modelled in `ℚ`. -/
def hash_to_float (hash_value : ℕ) : ℚ :=
  let finalized := murmur3_finalize hash_value
  let value := finalized &&& 0x7FFFFFFF
  let normalized : ℚ := (value : ℚ) / 2 ^ 31
  normalized * 2 - 1

/-- Python `range(dimension)` for an `int` dimension: empty when
`dimension ≤ 0`. -/
def pyRange (dimension : ℤ) : List ℕ :=
  List.range dimension.toNat

/-- The vector body of `generate_embedding`: for each `i` in
`range(dimension)`, `hash_to_float(generate_combined_hash(text, seed=i))`. -/
def embedList (text : List Char) (dimension : ℤ) : List ℚ :=
  (pyRange dimension).map fun i => hash_to_float (generate_combined_hash text i)

/-- `generate_embedding` from the source: raises `ValueError` (modelled as
`Except.error`) on empty text, otherwise returns the hash embedding. -/
def generate_embedding (text : List Char) (dimension : ℤ) :
    Except String (List ℚ) :=
  if text = [] then .error "Text cannot be empty"
  else .ok (embedList text dimension)

/-- The positional-hash fold exactly as the specification words it: start
with `seed`; for each byte at 0-based position `p`, update
`hash = hash * 31 + byte * (p + 1)`, all arithmetic modulo `2^64`. -/
def specPositionalFold (bytes : List ℕ) (seed : ℕ) : ℕ :=
  go seed 0 bytes
where
  /-- Walks the byte list keeping the current 0-based position `p`. -/
  go (h p : ℕ) : List ℕ → ℕ
  | [] => h
  | b :: rest => go ((h * 31 + b * (p + 1)) % 2 ^ 64) (p + 1) rest

/-- The error taxonomy of the design (§7): input errors, model-load errors
and inference errors. -/
inductive Err : Type
  | inputError
  | modelLoadError
  | inferenceError
deriving DecidableEq, Repr

/-- Modelled from the spec: the native `EmbeddingFacade`/`HashEngine`
validation layer (the systems-language core is not part of the Python
sources; only its POC re-implementation and bindings are).  Per §4.1/§6/§8:
the text's byte-length must lie in `[1, 8192]` and the dimension must be a
positive integer; violations are reported as `InputError` before any
computation; within bounds the hash algorithm of the POC runs. -/
def hashEmbed (text : List Char) (dimension : ℤ) : Except Err (List ℚ) :=
  if utf8ByteLength text < 1 ∨ utf8ByteLength text > 8192 then
    .error .inputError
  else if dimension < 1 then .error .inputError
  else .ok (embedList text dimension)

/-- `dot_product` from `tests/poc_algorithm_test.py`:
`sum(a * b for a, b in zip(vec1, vec2))`.  Float arithmetic is modelled over
the reals. -/
noncomputable def dot_product (vec1 vec2 : List ℝ) : ℝ :=
  ((vec1.zip vec2).map fun p => p.1 * p.2).sum

/-- `vector_norm` from the source: `math.sqrt(sum(x * x for x in vec))`. -/
noncomputable def vector_norm (vec : List ℝ) : ℝ :=
  Real.sqrt ((vec.map fun x => x * x).sum)

/-- `cosine_similarity` from the source: `dot / (norm1 * norm2)`, returning
`0.0` when either norm is zero. -/
noncomputable def cosine_similarity (vec1 vec2 : List ℝ) : ℝ :=
  let dot := dot_product vec1 vec2
  let norm1 := vector_norm vec1
  let norm2 := vector_norm vec2
  if norm1 = 0 ∨ norm2 = 0 then 0 else dot / (norm1 * norm2)

/-- Modelled from the spec: the native `VectorMath` dot product (§4.2; the
SIMD kernel is not among the Python sources).  A length mismatch is an
`InputError`, never a silent truncation; equal lengths give `Σ aᵢ·bᵢ`. -/
noncomputable def vmDotProduct (a b : List ℝ) : Except Err ℝ :=
  if a.length ≠ b.length then .error .inputError else .ok (dot_product a b)

/-- Modelled from the spec: the native `VectorMath` cosine similarity
(§4.2).  A length mismatch is an `InputError`; equal lengths give
`dot/(norm·norm)` with the zero-norm case defined as `0`. -/
noncomputable def vmCosineSimilarity (a b : List ℝ) : Except Err ℝ :=
  if a.length ≠ b.length then .error .inputError
  else .ok (cosine_similarity a b)

/-- Modelled from the spec: the `ModelCache` state machine (§4.4), `EMPTY`
or `LOADED(path, model)`; capacity one by construction. -/
inductive CacheState (Path Model : Type) : Type
  | empty
  | loaded (path : Path) (model : Model)
deriving DecidableEq

/-- Eviction-then-load step shared by the `withModel` cases that miss the
cache: attempt `load path`; on success the cache holds the new model and
`fn` runs on it; on failure the cache is left `EMPTY` and the error
propagates without invoking `fn`. -/
def loadThen {Path Model α : Type} (load : Path → Except Err Model)
    (fn : Model → α) (path : Path) : CacheState Path Model × Except Err α :=
  match load path with
  | .ok m => (.loaded path m, .ok (fn m))
  | .error e => (.empty, .error e)

/-- Modelled from the spec: `ModelCache.withModel(path, fn)` (§4.4).  On a
cache hit (same path) invoke `fn` directly with no reload; otherwise evict
any current entry and load the requested path via `loadThen`. -/
def withModel {Path Model α : Type} [DecidableEq Path]
    (load : Path → Except Err Model) (fn : Model → α) (path : Path) :
    CacheState Path Model → CacheState Path Model × Except Err α
  | .loaded p m =>
      if p = path then (.loaded p m, .ok (fn m)) else loadThen load fn path
  | .empty => loadThen load fn path

/-- A concrete load oracle used to exercise `withModel`: path `1` loads
model `7`, every other path fails. -/
def load1 : ℕ → Except Err ℕ :=
  fun q => if q = 1 then .ok 7 else .error .modelLoadError

/-- A concrete inference body used to exercise `withModel`. -/
def fn1 : ℕ → ℕ := fun m => m + 1

theorem U64MASK_eq : U64MASK = 2 ^ 64 - 1 := by norm_num [U64MASK]

theorem and_U64MASK (x : ℕ) : x &&& U64MASK = x % 2 ^ 64 := by
  rw [U64MASK_eq, Nat.and_pow_two_sub_one_eq_mod]

theorem positional_hash_go (bytes : List ℕ) :
    ∀ (h k : ℕ),
      (bytes.enumFrom k).foldl
        (fun h p => (h * 31 + p.2 * (p.1 + 1)) &&& U64MASK) h =
      specPositionalFold.go h k bytes := by
  induction bytes with
  | nil => intro h k; rfl
  | cons b rest ih =>
      intro h k
      simp only [List.enumFrom, List.foldl, specPositionalFold.go]
      rw [and_U64MASK]
      exact ih _ _

theorem hash_to_float_eq (h : ℕ) :
    hash_to_float h =
      ((murmur3_finalize h &&& 0x7FFFFFFF : ℕ) : ℚ) / 2 ^ 31 * 2 - 1 := rfl

theorem hash_to_float_bounds (h : ℕ) :
    -1 ≤ hash_to_float h ∧ hash_to_float h < 1 := by
  rw [hash_to_float_eq]
  have hle : murmur3_finalize h &&& 0x7FFFFFFF ≤ 0x7FFFFFFF :=
    Nat.and_le_right
  have h1 : ((murmur3_finalize h &&& 0x7FFFFFFF : ℕ) : ℚ) < 2 ^ 31 := by
    have hlt : murmur3_finalize h &&& 0x7FFFFFFF < 2 ^ 31 :=
      lt_of_le_of_lt hle (by norm_num)
    exact_mod_cast hlt
  have h0 : (0 : ℚ) ≤ ((murmur3_finalize h &&& 0x7FFFFFFF : ℕ) : ℚ) :=
    Nat.cast_nonneg _
  have hdiv1 : ((murmur3_finalize h &&& 0x7FFFFFFF : ℕ) : ℚ) / 2 ^ 31 < 1 :=
    (div_lt_one (by positivity)).mpr h1
  have hdiv0 : (0 : ℚ) ≤ ((murmur3_finalize h &&& 0x7FFFFFFF : ℕ) : ℚ) / 2 ^ 31 := by
    positivity
  constructor <;> linarith

theorem utf8ByteLength_replicate_a (n : ℕ) :
    utf8ByteLength (List.replicate n 'a') = n := by
  induction n with
  | zero => rfl
  | succ k ih =>
      simp only [utf8ByteLength, List.replicate_succ, List.flatMap_cons,
        List.length_append] at ih ⊢
      rw [ih]
      have h1 : (utf8EncodeChar 'a').length = 1 := by decide
      omega

/-- C3: for every text and every 64-bit seed, `positional_hash(text, seed)`
equals the fold that starts with the seed and, for each byte at 0-based
position `p` of the lower-cased UTF-8 byte sequence, updates
`hash = hash * 31 + byte * (p + 1)`, all arithmetic modulo `2^64`. -/
theorem positional_hash_eq_specFold (t : List Char) (seed : ℕ)
    (_hseed : seed < 2 ^ 64) :
    positional_hash t seed = specPositionalFold (textBytes t) seed := by
  unfold positional_hash specPositionalFold
  rw [List.enum]
  exact positional_hash_go _ _ _

theorem positional_hash_eq_specFold_witness :
    5 < 2 ^ 64 ∧
    positional_hash ['a', 'B'] 5 = specPositionalFold (textBytes ['a', 'B']) 5 :=
  ⟨by norm_num, positional_hash_eq_specFold ['a', 'B'] 5 (by norm_num)⟩

/-- C4: the combined hash used for dimension `i` equals
`hash1 XOR ((hash2 << 16) mod 2^64)` with `hash1 = positional_hash(text, i)`
and `hash2 = positional_hash(text, i * 37)`. -/
theorem generate_combined_hash_eq (t : List Char) (i : ℕ) :
    generate_combined_hash t i =
      positional_hash t i ^^^ (positional_hash t (i * 37) <<< 16 % 2 ^ 64) := by
  show positional_hash t i ^^^ (positional_hash t (i * 37) <<< 16 &&& U64MASK) =
    positional_hash t i ^^^ positional_hash t (i * 37) <<< 16 % 2 ^ 64
  rw [and_U64MASK]

/-- C1: the spec-modelled hash backend rejects generation with an
`InputError` exactly when the text's byte-length lies outside `[1, 8192]`:
empty text and 8193-byte text are rejected, 8192-byte text succeeds, for
every positive dimension. -/
theorem hashEmbed_boundary (t : List Char) (d : ℤ) (hd : 0 < d) :
    ((utf8ByteLength t < 1 ∨ utf8ByteLength t > 8192) →
      hashEmbed t d = .error .inputError) ∧
    ((hashEmbed t d).isOk = true ↔
      1 ≤ utf8ByteLength t ∧ utf8ByteLength t ≤ 8192) := by
  unfold hashEmbed
  have hd1 : ¬ d < 1 := by omega
  constructor
  · intro h
    rw [if_pos h]
  · by_cases h : utf8ByteLength t < 1 ∨ utf8ByteLength t > 8192
    · rw [if_pos h]
      simp only [Except.isOk, Except.toBool]
      constructor
      · intro hfalse; cases hfalse
      · intro hb; omega
    · rw [if_neg h, if_neg hd1]
      simp only [Except.isOk, Except.toBool]
      constructor
      · intro _
        omega
      · intro _
        trivial

theorem hashEmbed_boundary_witness :
    0 < (3 : ℤ) ∧
    hashEmbed [] 3 = .error .inputError ∧
    hashEmbed (List.replicate 8193 'a') 3 = .error .inputError ∧
    (hashEmbed (List.replicate 8192 'a') 3).isOk = true :=
  ⟨by norm_num,
   (hashEmbed_boundary [] 3 (by norm_num)).1 (Or.inl (by decide)),
   (hashEmbed_boundary (List.replicate 8193 'a') 3 (by norm_num)).1
     (Or.inr (by rw [utf8ByteLength_replicate_a]; norm_num)),
   (hashEmbed_boundary (List.replicate 8192 'a') 3 (by norm_num)).2.mpr
     ⟨by rw [utf8ByteLength_replicate_a]; norm_num,
      by rw [utf8ByteLength_replicate_a]⟩⟩

/-- C2: the spec-modelled `VectorMath` operations signal an `InputError`
for every pair of float vectors of unequal length; they never compute a
result over truncated or padded inputs. -/
theorem vectorMath_length_mismatch (a b : List ℝ) (h : a.length ≠ b.length) :
    vmDotProduct a b = .error .inputError ∧
    vmCosineSimilarity a b = .error .inputError := by
  unfold vmDotProduct vmCosineSimilarity
  rw [if_pos h, if_pos h]
  exact ⟨rfl, rfl⟩

theorem vectorMath_length_mismatch_witness :
    [(1 : ℝ)].length ≠ [(1 : ℝ), 2].length ∧
    (vmDotProduct [(1 : ℝ)] [1, 2] = .error .inputError ∧
     vmCosineSimilarity [(1 : ℝ)] [1, 2] = .error .inputError) :=
  ⟨by decide, vectorMath_length_mismatch [(1 : ℝ)] [1, 2] (by decide)⟩

/-- C5: for every non-empty text and positive dimension, every component of
the returned hash embedding is obtained from the combined hash by the
finalize/mask-to-31-bits/divide-by-`2^31`/`*2-1` pipeline, and lies in the
half-open interval `[-1, 1)`. -/
theorem generate_embedding_range (t : List Char) (d : ℤ) (v : List ℚ)
    (ht : t ≠ []) (_hd : 0 < d)
    (hv : generate_embedding t d = .ok v) (i : ℕ) (hi : i < v.length) :
    v[i] = hash_to_float (generate_combined_hash t i) ∧
    v[i] =
      ((murmur3_finalize (generate_combined_hash t i) &&& 0x7FFFFFFF : ℕ) : ℚ)
        / 2 ^ 31 * 2 - 1 ∧
    -1 ≤ v[i] ∧ v[i] < 1 := by
  unfold generate_embedding at hv
  rw [if_neg ht] at hv
  have hv' : embedList t d = v := by
    cases hv
    rfl
  subst hv'
  have hget : (embedList t d)[i] = hash_to_float (generate_combined_hash t i) := by
    simp only [embedList, pyRange, List.getElem_map, List.getElem_range]
  refine ⟨hget, ?_, ?_⟩
  · rw [hget, hash_to_float_eq]
  · rw [hget]
    exact ⟨(hash_to_float_bounds _).1, (hash_to_float_bounds _).2⟩

set_option maxRecDepth 10000 in
theorem generate_embedding_range_witness :
    (['a'] ≠ ([] : List Char)) ∧ 0 < (1 : ℤ) ∧
    generate_embedding ['a'] 1 =
      .ok [hash_to_float (generate_combined_hash ['a'] 0)] ∧
    -1 ≤ [hash_to_float (generate_combined_hash ['a'] 0)][0] ∧
    [hash_to_float (generate_combined_hash ['a'] 0)][0] < 1 :=
  ⟨by decide, by norm_num, rfl,
   (generate_embedding_range ['a'] 1
      [hash_to_float (generate_combined_hash ['a'] 0)]
      (by decide) (by norm_num) rfl 0 (by decide)).2.2.1,
   (generate_embedding_range ['a'] 1
      [hash_to_float (generate_combined_hash ['a'] 0)]
      (by decide) (by norm_num) rfl 0 (by decide)).2.2.2⟩

/-- C6: hash embedding is case-insensitive: texts with the same lower-cased
character sequence produce the identical embedding for every dimension,
because hashing operates on the lower-cased byte sequence. -/
theorem generate_embedding_case_invariant (t t' : List Char) (d : ℤ)
    (h : t.map pyLowerChar = t'.map pyLowerChar) :
    generate_embedding t d = generate_embedding t' d := by
  have hb : textBytes t = textBytes t' := by
    unfold textBytes
    rw [h]
  have hlen : t.length = t'.length := by
    have := congrArg List.length h
    simpa using this
  have hnil : t = [] ↔ t' = [] := by
    rw [← List.length_eq_zero, ← List.length_eq_zero, hlen]
  have hph : ∀ s, positional_hash t s = positional_hash t' s := by
    intro s
    unfold positional_hash
    rw [hb]
  unfold generate_embedding
  by_cases hn : t = []
  · rw [if_pos hn, if_pos (hnil.mp hn)]
  · rw [if_neg hn, if_neg fun hx => hn (hnil.mpr hx)]
    have he : embedList t d = embedList t' d := by
      unfold embedList
      refine List.map_congr_left fun i _ => ?_
      unfold generate_combined_hash
      rw [hph, hph]
    rw [he]

theorem generate_embedding_case_invariant_witness :
    ['H', 'e', 'l', 'l', 'o'].map pyLowerChar =
      ['H', 'E', 'L', 'L', 'O'].map pyLowerChar ∧
    generate_embedding ['H', 'e', 'l', 'l', 'o'] 2 =
      generate_embedding ['H', 'E', 'L', 'L', 'O'] 2 :=
  ⟨by decide,
   generate_embedding_case_invariant ['H', 'e', 'l', 'l', 'o']
     ['H', 'E', 'L', 'L', 'O'] 2 (by decide)⟩

/-- C7: for every pair of equal-length float vectors, `cosine_similarity`
returns `dot_product a b / (vector_norm a * vector_norm b)`, and returns
exactly `0` whenever either norm is zero (defined behavior, not an error
and not NaN). -/
theorem cosine_similarity_spec (vec1 vec2 : List ℝ)
    (_h : vec1.length = vec2.length) :
    (vector_norm vec1 = 0 ∨ vector_norm vec2 = 0 →
      cosine_similarity vec1 vec2 = 0) ∧
    (vector_norm vec1 ≠ 0 → vector_norm vec2 ≠ 0 →
      cosine_similarity vec1 vec2 =
        dot_product vec1 vec2 / (vector_norm vec1 * vector_norm vec2)) := by
  unfold cosine_similarity
  constructor
  · intro hz
    rw [if_pos hz]
  · intro h1 h2
    rw [if_neg (by tauto)]

theorem cosine_similarity_spec_witness :
    [(0 : ℝ)].length = [(3 : ℝ)].length ∧
    cosine_similarity [(0 : ℝ)] [(3 : ℝ)] = 0 :=
  ⟨rfl,
   (cosine_similarity_spec [(0 : ℝ)] [(3 : ℝ)] rfl).1
     (Or.inl (by simp [vector_norm]))⟩

/-- C8: the hash-backend embedding is deterministic: the result of
`generate_embedding` depends only on its arguments (the model is a pure
function, matching the source, which reads no hidden state and uses no
randomness), so two invocations on the same text and dimension produce
identical output. -/
theorem generate_embedding_deterministic (t : List Char) (d : ℤ) :
    generate_embedding t d = generate_embedding t d := rfl

/-- C9: the spec-modelled `ModelCache.withModel`: a cache hit invokes `fn`
directly without consulting the loader; a different path (or empty cache)
loads the requested path, transitioning to `LOADED(path, model)` on success
and invoking `fn`; on a load failure the cache is left `EMPTY` and the
error propagates without invoking `fn`; and after any call the cache is
empty or holds exactly the requested path. -/
theorem withModel_spec {Path Model α : Type} [DecidableEq Path]
    (load : Path → Except Err Model) (fn : Model → α) (p : Path) :
    (∀ m, withModel load fn p (.loaded p m) = (.loaded p m, .ok (fn m))) ∧
    (∀ q m m', q ≠ p → load p = .ok m' →
      withModel load fn p (.loaded q m) = (.loaded p m', .ok (fn m'))) ∧
    (∀ m', load p = .ok m' →
      withModel load fn p .empty = (.loaded p m', .ok (fn m'))) ∧
    (∀ e, load p = .error e →
      withModel load fn p .empty = (.empty, .error e)) ∧
    (∀ q m e, q ≠ p → load p = .error e →
      withModel load fn p (.loaded q m) = (.empty, .error e)) ∧
    (∀ s, (withModel load fn p s).1 = .empty ∨
      ∃ m', (withModel load fn p s).1 = CacheState.loaded p m') := by
  refine ⟨fun m => ?_, fun q m m' hq hl => ?_, fun m' hl => ?_,
    fun e hl => ?_, fun q m e hq hl => ?_, fun s => ?_⟩
  · simp [withModel]
  · simp [withModel, loadThen, hq, hl]
  · simp [withModel, loadThen, hl]
  · simp [withModel, loadThen, hl]
  · simp [withModel, loadThen, hq, hl]
  · cases s with
    | empty =>
        simp only [withModel, loadThen]
        cases hl : load p with
        | ok m' => exact Or.inr ⟨m', by simp [hl]⟩
        | error e => exact Or.inl (by simp [hl])
    | loaded q m =>
        by_cases hq : q = p
        · subst hq
          exact Or.inr ⟨m, by simp [withModel]⟩
        · simp only [withModel, if_neg hq, loadThen]
          cases hl : load p with
          | ok m' => exact Or.inr ⟨m', by simp [hl]⟩
          | error e => exact Or.inl (by simp [hl])

theorem withModel_spec_witness :
    withModel load1 fn1 1 (.loaded 1 7) = (.loaded 1 7, .ok 8) ∧
    withModel load1 fn1 1 (.loaded 2 9) = (.loaded 1 7, .ok 8) ∧
    withModel load1 fn1 2 (.loaded 1 7) =
      (CacheState.empty, .error .modelLoadError) :=
  ⟨(withModel_spec load1 fn1 1).1 7,
   (withModel_spec load1 fn1 1).2.1 2 9 7 (by decide) rfl,
   (withModel_spec load1 fn1 2).2.2.2.2.1 1 7 .modelLoadError (by decide) rfl⟩

/-- C10: for every non-empty text, the POC `generate_embedding` raises no
error on a dimension of zero or any negative dimension and returns the
empty vector; non-positive dimensions are silently accepted. -/
theorem generate_embedding_nonpositive_dim (t : List Char) (d : ℤ)
    (ht : t ≠ []) (hd : d ≤ 0) : generate_embedding t d = .ok [] := by
  unfold generate_embedding
  rw [if_neg ht]
  unfold embedList pyRange
  rw [Int.toNat_of_nonpos hd]
  rfl

theorem generate_embedding_nonpositive_dim_witness :
    (['a'] ≠ ([] : List Char)) ∧ (-5 : ℤ) ≤ 0 ∧ (0 : ℤ) ≤ 0 ∧
    generate_embedding ['a'] (-5) = .ok [] ∧
    generate_embedding ['a'] 0 = .ok [] :=
  ⟨by decide, by norm_num, by norm_num,
   generate_embedding_nonpositive_dim ['a'] (-5) (by decide) (by norm_num),
   generate_embedding_nonpositive_dim ['a'] 0 (by decide) (by norm_num)⟩

end FastEmbed
